import Mathlib

/-! Verification of the `embytes-buffer` cursor/compaction core.

Shallow embedding of the fixed-capacity byte buffer from `src/lib.rs`,
`src/read.rs` and `src/write.rs`.  The backing storage (`source`, a
fixed-length mutable byte region in Rust) is modelled as a `List Nat`;
all operations preserve its length, which is the buffer's capacity.
Fallible operations return their `Result` together with the buffer state
after the call (the Rust methods mutate `self` even on some error paths,
e.g. `push` may `shift` before failing).
-/

namespace EmbytesBuffer

/-- The `BufferError` enum of `src/lib.rs` (the serde-only variant is
feature-gated out of the core and carries no data relevant here). -/
inductive BufferError where
  | NoCapacity
  | ProvidedSliceEmpty
  | NoData
deriving DecidableEq, Repr

/-- The `Buffer<T>` struct: backing storage plus the two cursors. -/
structure Buffer where
  source : List Nat
  write_position : Nat
  read_position : Nat
deriving DecidableEq, Repr

namespace Buffer

/-- Rust `Buffer::new(source)`: both cursors start at zero. -/
def new (source : List Nat) : Buffer :=
  { source := source, read_position := 0, write_position := 0 }

/-- Rust `new_stack_buffer::<N>()`: an owned zero-initialised array of size `N`. -/
def new_stack_buffer (n : Nat) : Buffer :=
  new (List.replicate n 0)

/-- Rust `Buffer::reset`. -/
def reset (b : Buffer) : Buffer :=
  { b with read_position := 0, write_position := 0 }

/-- Rust `Buffer::capacity`: length of the underlying storage. -/
def capacity (b : Buffer) : Nat :=
  b.source.length

/-- Rust `Buffer::remaining_capacity` = capacity − write_position. -/
def remaining_capacity (b : Buffer) : Nat :=
  b.capacity - b.write_position

/-- Rust `Buffer::has_remaining_capacity` = capacity > write_position. -/
def has_remaining_capacity (b : Buffer) : Bool :=
  b.capacity > b.write_position

/-- Rust `Buffer::remaining_len` = write_position − read_position. -/
def remaining_len (b : Buffer) : Nat :=
  b.write_position - b.read_position

/-- Rust `Buffer::has_remaining_len` = write_position > read_position. -/
def has_remaining_len (b : Buffer) : Bool :=
  b.write_position > b.read_position

/-- Rust `Buffer::has_dead_capacity` = read_position > 0. -/
def has_dead_capacity (b : Buffer) : Bool :=
  b.read_position > 0

/-- Rust `Buffer::shift`: `source.rotate_left(read_position)` (which, for an
in-bounds rotation amount, moves the first `read_position` elements to the
end), then `write_position -= read_position; read_position = 0`. -/
def shift (b : Buffer) : Buffer :=
  { source := b.source.drop b.read_position ++ b.source.take b.read_position,
    write_position := b.write_position - b.read_position,
    read_position := 0 }

/-- Rust `Buffer::ensure_remaining_capacity`. -/
def ensure_remaining_capacity (b : Buffer) : Bool × Buffer :=
  let b := if ¬ b.has_remaining_capacity then b.shift else b
  (b.has_remaining_capacity, b)

/-- Rust `Buffer::data`: the readable slice `&source[read_position..write_position]`. -/
def data (b : Buffer) : List Nat :=
  (b.source.take b.write_position).drop b.read_position

/-- Rust `slice[off..off+data.len()].copy_from_slice(data)`: overwrite `data.length`
elements of `src` starting at offset `off` (meaningful for
`off + data.length ≤ src.length`, which Rust's slicing enforces). -/
def copyInto (src : List Nat) (off : Nat) (dat : List Nat) : List Nat :=
  src.take off ++ dat ++ src.drop (off + dat.length)

/-- The conditional compaction step at the start of `Buffer::write_base`:
`if !self.has_remaining_capacity() && self.has_dead_capacity() { self.shift(); }`. -/
def write_shifted (b : Buffer) : Buffer :=
  if ¬ b.has_remaining_capacity ∧ b.has_dead_capacity then b.shift else b

/-- Rust `Buffer::write_base(buf)`: returns the Rust `Result` and the buffer state
after the call. -/
def write_base (b : Buffer) (buf : List Nat) : Except BufferError Nat × Buffer :=
  if buf.isEmpty then (.error .ProvidedSliceEmpty, b)
  else
    let b := b.write_shifted
    let cap := b.remaining_capacity
    if cap = 0 then (.error .NoCapacity, b)
    else if cap < buf.length then
      (.ok cap,
       { b with source := copyInto b.source b.write_position (buf.take cap),
                write_position := b.write_position + cap })
    else
      (.ok buf.length,
       { b with source := copyInto b.source b.write_position buf,
                write_position := b.write_position + buf.length })

/-- Rust `Buffer::read_base(buf)`: returns the Rust `Result`, the final contents of
the caller-provided slice `buf`, and the buffer state after the call. -/
def read_base (b : Buffer) (buf : List Nat) :
    Except BufferError Nat × List Nat × Buffer :=
  if buf.isEmpty then (.error .ProvidedSliceEmpty, buf, b)
  else
    let src := b.data
    if src.isEmpty then (.error .NoData, buf, b)
    else if src.length > buf.length then
      (.ok buf.length, src.take buf.length,
       { b with read_position := b.read_position + buf.length })
    else
      (.ok src.length, src ++ buf.drop src.length,
       { b with read_position := b.read_position + src.length })

/-- Rust `Buffer::skip(n)`. -/
def skip (b : Buffer) (n : Nat) : Except BufferError Unit × Buffer :=
  if b.remaining_len ≥ n then
    (.ok (), { b with read_position := b.read_position + n })
  else
    (.error .NoData, b)

/-- The conditional compaction step at the start of `Buffer::push`:
`if self.remaining_capacity() < buf.len() && self.has_dead_capacity() { self.shift(); }`. -/
def push_shifted (b : Buffer) (buf : List Nat) : Buffer :=
  if b.remaining_capacity < buf.length ∧ b.has_dead_capacity then b.shift else b

/-- Rust `Buffer::push(buf)`: all-or-nothing append; may `shift` first. -/
def push (b : Buffer) (buf : List Nat) : Except BufferError Unit × Buffer :=
  let b := b.push_shifted buf
  if b.remaining_capacity ≥ buf.length then
    (.ok (),
     { b with source := copyInto b.source b.write_position buf,
              write_position := b.write_position + buf.length })
  else
    (.error .NoCapacity, b)

/-- The cursor invariant of the spec:
`0 ≤ read_position ≤ write_position ≤ capacity` (the `0 ≤` is trivial in `Nat`). -/
def Inv (b : Buffer) : Prop :=
  b.read_position ≤ b.write_position ∧ b.write_position ≤ b.capacity

instance (b : Buffer) : Decidable b.Inv := by
  unfold Inv; infer_instance

end Buffer

/-! Scoped reader (`src/read.rs`).

A `Reader` holds `&mut Buffer`, a counter `bytes_read` (a `Cell`, accumulated
by `add_bytes_read`) and an optional `max_bytes` cap.  `deref` exposes
`buffer.data()`, truncated to `..max` when a cap is present — Rust's
`&src[..max]` panics when `max > src.len()`, modelled as `none`.
`drop` calls `buffer.skip(bytes_read).expect(..)`: a failing skip panics,
modelled as `none`. -/

/-- Rust `Reader::deref` as a function of the buffer and the `max_bytes` field;
`none` models the panic of `&src[..max]` when `max > src.len()`. -/
def reader_deref (b : Buffer) (max_bytes : Option Nat) : Option (List Nat) :=
  let src := b.data
  match max_bytes with
  | some max => if max ≤ src.length then some (src.take max) else none
  | none => some src

/-- Rust `Reader::drop` as a function of the buffer and the accumulated
`bytes_read`; `none` models the `.expect` panic when the skip fails. -/
def reader_drop (b : Buffer) (bytes_read : Nat) : Option Buffer :=
  match b.skip bytes_read with
  | (.ok _, b') => some b'
  | (.error _, _) => none

/-! Scoped writer (`src/write.rs`). -/

/-- The `Write<'a, T>` handle: the borrowed buffer plus the accumulated
`bytes_written` counter. -/
structure WriteHandle where
  buffer : Buffer
  bytes_written : Nat
deriving DecidableEq, Repr

namespace WriteHandle

/-- Rust `ReadWrite::create_writer` for `Buffer`: first performs `shift()`, then
wraps the buffer with a zero counter (`Write::new`). -/
def create_writer (b : Buffer) : WriteHandle :=
  { buffer := b.shift, bytes_written := 0 }

/-- Rust `Write::remaining_capacity` = capacity − write_position − bytes_written. -/
def remaining_capacity (w : WriteHandle) : Nat :=
  w.buffer.capacity - w.buffer.write_position - w.bytes_written

/-- Rust `Write::commit(n)`: guarded accumulation into `bytes_written`. -/
def commit (w : WriteHandle) (n : Nat) : Except BufferError Unit × WriteHandle :=
  if w.remaining_capacity < n then (.error .NoCapacity, w)
  else (.ok (), { w with bytes_written := w.bytes_written + n })

/-- Rust `Write::deref` / `deref_mut`: the exposed region
`&source[write_position + bytes_written ..]`. -/
def deref (w : WriteHandle) : List Nat :=
  w.buffer.source.drop (w.buffer.write_position + w.bytes_written)

/-- The caller writing `ws` in place at the start of the exposed mutable
region obtained from `deref_mut` (meaningful for `ws.length ≤ w.deref.length`,
which Rust's slicing enforces). -/
def write_view (w : WriteHandle) (ws : List Nat) : WriteHandle :=
  { w with buffer :=
      { w.buffer with
        source := Buffer.copyInto w.buffer.source (w.buffer.write_position + w.bytes_written) ws } }

/-- Rust `Write::drop`: `write_position += bytes_written`, then a defensive panic
(modelled as `none`) if the new write position exceeds the storage length. -/
def drop (w : WriteHandle) : Option Buffer :=
  let wp := w.buffer.write_position + w.bytes_written
  if wp > w.buffer.source.length then none
  else some { w.buffer with write_position := wp }

end WriteHandle

/-- The caller-side actions available while a writer handle is open: any
interleaving of in-place writes through `deref_mut` (kept within the exposed
region) and `commit` calls (whose guard leaves the handle unchanged on
failure). -/
inductive WriterSteps : WriteHandle → WriteHandle → Prop
  | refl (w : WriteHandle) : WriterSteps w w
  | commit (w w' : WriteHandle) (n : Nat) :
      WriterSteps w w' → WriterSteps w (w'.commit n).2
  | write (w w' : WriteHandle) (ws : List Nat)
      (h : ws.length ≤ w'.deref.length) :
      WriterSteps w w' → WriterSteps w (w'.write_view ws)

/-- One observable operation on a buffer, starting from any state: the direct
`Buffer` operations, a complete reader session that releases without
panicking, and a complete writer session that releases without panicking. -/
inductive Step : Buffer → Buffer → Prop
  | write (b : Buffer) (buf : List Nat) : Step b (b.write_base buf).2
  | read (b : Buffer) (buf : List Nat) : Step b (b.read_base buf).2.2
  | push (b : Buffer) (buf : List Nat) : Step b (b.push buf).2
  | skip (b : Buffer) (n : Nat) : Step b (b.skip n).2
  | shift (b : Buffer) : Step b b.shift
  | reset (b : Buffer) : Step b b.reset
  | reader (b b' : Buffer) (total : Nat)
      (h : reader_drop b total = some b') : Step b b'
  | writer (b b' : Buffer) (w : WriteHandle)
      (hs : WriterSteps (WriteHandle.create_writer b) w)
      (hd : w.drop = some b') : Step b b'

/-- The writer-handle invariant maintained while a writer session is open:
the committed total never takes the eventual write position past capacity
(this is what `commit`'s guard enforces). -/
def WInv (w : WriteHandle) : Prop :=
  w.buffer.read_position ≤ w.buffer.write_position ∧
  w.buffer.write_position + w.bytes_written ≤ w.buffer.capacity

/-- States reachable from a freshly constructed buffer by finite sequences of
operations. -/
def Reachable (src : List Nat) (b : Buffer) : Prop :=
  Relation.ReflTransGen Step (Buffer.new src) b

end EmbytesBuffer


namespace EmbytesBuffer

namespace Buffer

theorem length_copyInto (src : List Nat) (off : Nat) (dat : List Nat)
    (h : off + dat.length ≤ src.length) :
    (copyInto src off dat).length = src.length := by
  unfold copyInto
  rw [List.length_append, List.length_append, List.length_take, List.length_drop]
  omega

theorem capacity_shift (b : Buffer) : b.shift.capacity = b.capacity := by
  unfold shift capacity
  rw [List.length_append, List.length_take, List.length_drop]
  omega

theorem data_shift (b : Buffer) (h : b.Inv) : b.shift.data = b.data := by
  obtain ⟨h1, h2⟩ := h
  have hwl : b.write_position ≤ b.source.length := h2
  show ((b.source.drop b.read_position ++ b.source.take b.read_position).take
      (b.write_position - b.read_position)).drop 0 = _
  rw [List.drop_zero,
      List.take_append_of_le_length (by rw [List.length_drop]; omega),
      List.take_drop, Nat.add_sub_cancel' h1]
  rfl

theorem Inv_shift (b : Buffer) (h : b.Inv) : b.shift.Inv := by
  obtain ⟨h1, h2⟩ := h
  have hwl : b.write_position ≤ b.source.length := h2
  constructor
  · exact Nat.zero_le _
  · rw [capacity_shift]
    show b.write_position - b.read_position ≤ b.capacity
    unfold capacity
    omega

theorem remaining_len_shift (b : Buffer) : b.shift.remaining_len = b.remaining_len := by
  show b.write_position - b.read_position - 0 = b.write_position - b.read_position
  omega

theorem length_data (b : Buffer) (h : b.Inv) : b.data.length = b.remaining_len := by
  obtain ⟨h1, h2⟩ := h
  have hwl : b.write_position ≤ b.source.length := h2
  unfold data remaining_len
  rw [List.length_drop, List.length_take]
  omega

theorem data_copyInto_take (b : Buffer) (dat : List Nat) (k : Nat) (h : b.Inv)
    (hk : k ≤ dat.length) :
    Buffer.data { b with source := Buffer.copyInto b.source b.write_position dat,
                         write_position := b.write_position + k }
      = b.data ++ dat.take k := by
  obtain ⟨h1, h2⟩ := h
  have hwl : b.write_position ≤ b.source.length := h2
  have hA : (b.source.take b.write_position).length = b.write_position := by
    rw [List.length_take]; omega
  show ((Buffer.copyInto b.source b.write_position dat).take (b.write_position + k)).drop
      b.read_position = _
  unfold Buffer.copyInto
  rw [List.append_assoc,
      show b.write_position + k = (b.source.take b.write_position).length + k from by rw [hA],
      List.take_append,
      List.take_append_of_le_length hk,
      List.drop_append_of_le_length (by rw [hA]; exact h1)]
  rfl

theorem data_copyInto (b : Buffer) (dat : List Nat) (h : b.Inv) :
    Buffer.data { b with source := Buffer.copyInto b.source b.write_position dat,
                         write_position := b.write_position + dat.length }
      = b.data ++ dat := by
  have := data_copyInto_take b dat dat.length h (Nat.le_refl _)
  simpa [List.take_length] using this

theorem Inv_write_shifted (b : Buffer) (h : b.Inv) : b.write_shifted.Inv := by
  unfold write_shifted
  split
  · exact Inv_shift b h
  · exact h

theorem data_write_shifted (b : Buffer) (h : b.Inv) : b.write_shifted.data = b.data := by
  unfold write_shifted
  split
  · exact data_shift b h
  · rfl

theorem Inv_push_shifted (b : Buffer) (buf : List Nat) (h : b.Inv) :
    (b.push_shifted buf).Inv := by
  unfold push_shifted
  split
  · exact Inv_shift b h
  · exact h

theorem data_push_shifted (b : Buffer) (buf : List Nat) (h : b.Inv) :
    (b.push_shifted buf).data = b.data := by
  unfold push_shifted
  split
  · exact data_shift b h
  · rfl

theorem remaining_len_push_shifted (b : Buffer) (buf : List Nat) :
    (b.push_shifted buf).remaining_len = b.remaining_len := by
  unfold push_shifted
  split
  · exact remaining_len_shift b
  · rfl

end Buffer

/-! Claims. -/

/-- C4: `skip(n)` succeeds and advances `read_position` by exactly `n` iff
`n ≤ remaining_len()`; `n = remaining_len()` leaves `remaining_len() = 0`;
`n > remaining_len()` fails with `NoData` and leaves the state unchanged. -/
theorem C4_skip_spec (b : Buffer) (n : Nat) :
    ((b.skip n).1 = .ok () ↔ n ≤ b.remaining_len) ∧
    (n ≤ b.remaining_len →
      (b.skip n).2.read_position = b.read_position + n ∧
      (b.skip n).2.write_position = b.write_position ∧
      (b.skip n).2.source = b.source) ∧
    (n = b.remaining_len → (b.skip n).2.remaining_len = 0) ∧
    (b.remaining_len < n → (b.skip n).1 = .error .NoData ∧ (b.skip n).2 = b) := by
  unfold Buffer.skip
  split
  case isTrue h =>
    refine ⟨by simpa using h, fun _ => ⟨rfl, rfl, rfl⟩, fun he => ?_, fun hl => absurd h (by omega)⟩
    show b.write_position - (b.read_position + n) = 0
    unfold Buffer.remaining_len at he
    omega
  case isFalse h =>
    refine ⟨by simp; omega, fun hle => absurd hle (by omega), fun he => absurd he.le (by omega),
      fun _ => ⟨rfl, rfl⟩⟩

/-- Witness for C4 at a concrete state (capacity 4, 4 unread bytes, skip 2). -/
theorem C4_skip_spec_witness :
    (Buffer.skip ⟨[4, 4, 4, 4], 4, 0⟩ 2).1 = .ok () :=
  (C4_skip_spec ⟨[4, 4, 4, 4], 4, 0⟩ 2).1.mpr (by decide)

/-- C5: under the cursor invariant, `shift()` preserves `remaining_len` and
the unread bytes (the readable slice is unchanged, now starting at offset 0),
sets `read_position = 0`, decreases `write_position` by the old
`read_position`, and gains exactly the prior dead capacity as free space. -/
theorem C5_shift_spec (b : Buffer) (h : b.Inv) :
    b.shift.remaining_len = b.remaining_len ∧
    b.shift.data = b.data ∧
    b.shift.read_position = 0 ∧
    b.shift.write_position = b.write_position - b.read_position ∧
    b.shift.remaining_capacity = b.remaining_capacity + b.read_position := by
  have hd := Buffer.data_shift b h
  obtain ⟨h1, h2⟩ := h
  have hwl : b.write_position ≤ b.source.length := h2
  refine ⟨?_, hd, rfl, rfl, ?_⟩
  · show b.write_position - b.read_position - 0 = b.remaining_len
    unfold Buffer.remaining_len
    omega
  · rw [show b.shift.remaining_capacity = b.shift.capacity - (b.write_position - b.read_position)
        from rfl, Buffer.capacity_shift]
    show b.capacity - _ = b.capacity - b.write_position + b.read_position
    unfold Buffer.capacity
    omega

/-- Witness for C5: a buffer with 4 dead bytes and 4 unread bytes. -/
theorem C5_shift_spec_witness :
    (Buffer.shift ⟨[0, 1, 2, 3, 4, 5, 6, 7], 8, 4⟩).data
      = (Buffer.data ⟨[0, 1, 2, 3, 4, 5, 6, 7], 8, 4⟩) :=
  (C5_shift_spec ⟨[0, 1, 2, 3, 4, 5, 6, 7], 8, 4⟩ (by decide)).2.1

/-- C10: for a reader created with `create_reader_with_max(m)`, dereferencing
panics (the slice bound `..m` is out of range) exactly when `m` exceeds
`remaining_len()`; otherwise it exposes the first `m` unread bytes. -/
theorem C10_reader_max_deref (b : Buffer) (m : Nat) (h : b.Inv) :
    (b.remaining_len < m → reader_deref b (some m) = none) ∧
    (m ≤ b.remaining_len → reader_deref b (some m) = some (b.data.take m)) := by
  have hl := Buffer.length_data b h
  constructor
  · intro hm
    show (if m ≤ b.data.length then some (b.data.take m) else none) = none
    rw [if_neg (by omega)]
  · intro hm
    show (if m ≤ b.data.length then some (b.data.take m) else none) = some (b.data.take m)
    rw [if_pos (by omega)]

/-- Witness for C10: capacity 4, 2 unread bytes, max cap 3 — deref panics. -/
theorem C10_reader_max_deref_witness :
    reader_deref ⟨[1, 2, 3, 4], 2, 0⟩ (some 3) = none :=
  (C10_reader_max_deref ⟨[1, 2, 3, 4], 2, 0⟩ 3 (by decide)).1 (by decide)

/-- C7: `create_writer` first shifts the buffer, and the writable view it
exposes has length `capacity − remaining_len` (the fully reclaimed free
region), not merely the pre-compaction `remaining_capacity`. -/
theorem C7_create_writer_view (b : Buffer) :
    (WriteHandle.create_writer b).buffer = b.shift ∧
    (WriteHandle.create_writer b).deref.length = b.capacity - b.remaining_len := by
  refine ⟨rfl, ?_⟩
  have hc := Buffer.capacity_shift b
  unfold Buffer.capacity at hc
  show (b.shift.source.drop (b.shift.write_position + 0)).length = _
  rw [List.length_drop]
  show b.shift.source.length - (b.write_position - b.read_position + 0)
      = b.source.length - (b.write_position - b.read_position)
  omega

/-- C2: `write(buf)` fails with `ProvidedSliceEmpty` on an empty slice;
otherwise, after the conditional compaction (`shift` when free space is zero
and dead capacity exists), it fails with `NoCapacity` if free space is still
zero, and else copies exactly `min(buf.len(), remaining_capacity())` bytes to
the end of the readable region, advances `write_position` by that count and
returns that count. -/
theorem C2_write_spec (b : Buffer) (buf : List Nat) (h : b.Inv) :
    (buf = [] → b.write_base buf = (.error .ProvidedSliceEmpty, b)) ∧
    (buf ≠ [] → b.write_shifted.remaining_capacity = 0 →
      b.write_base buf = (.error .NoCapacity, b.write_shifted)) ∧
    (buf ≠ [] → 0 < b.write_shifted.remaining_capacity →
      (b.write_base buf).1 = .ok (min buf.length b.write_shifted.remaining_capacity) ∧
      (b.write_base buf).2.write_position
        = b.write_shifted.write_position + min buf.length b.write_shifted.remaining_capacity ∧
      (b.write_base buf).2.read_position = b.write_shifted.read_position ∧
      (b.write_base buf).2.data
        = b.data ++ buf.take (min buf.length b.write_shifted.remaining_capacity)) := by
  have hInv1 := Buffer.Inv_write_shifted b h
  have hdata1 := Buffer.data_write_shifted b h
  refine ⟨?_, ?_, ?_⟩
  · intro hbuf
    subst hbuf
    rfl
  · intro hne hcap
    have hbe : buf.isEmpty = false := by
      cases buf
      · exact absurd rfl hne
      · rfl
    simp only [Buffer.write_base, hbe, Bool.false_eq_true, if_false]
    rw [if_pos hcap]
  · intro hne hcap
    have hbe : buf.isEmpty = false := by
      cases buf
      · exact absurd rfl hne
      · rfl
    simp only [Buffer.write_base, hbe, Bool.false_eq_true, if_false]
    rw [if_neg (Nat.pos_iff_ne_zero.mp hcap)]
    by_cases hlt : b.write_shifted.remaining_capacity < buf.length
    · rw [if_pos hlt]
      refine ⟨?_, ?_, rfl, ?_⟩
      · rw [min_eq_right (Nat.le_of_lt hlt)]
      · rw [min_eq_right (Nat.le_of_lt hlt)]
      · have hdl : (buf.take b.write_shifted.remaining_capacity).length
            = b.write_shifted.remaining_capacity := by
          rw [List.length_take]
          omega
        have hd := Buffer.data_copyInto b.write_shifted
          (buf.take b.write_shifted.remaining_capacity) hInv1
        rw [hdl] at hd
        rw [hd, hdata1, min_eq_right (Nat.le_of_lt hlt)]
    · rw [if_neg hlt]
      have hge : buf.length ≤ b.write_shifted.remaining_capacity := Nat.le_of_not_lt hlt
      refine ⟨?_, ?_, rfl, ?_⟩
      · rw [min_eq_left hge]
      · rw [min_eq_left hge]
      · rw [Buffer.data_copyInto b.write_shifted buf hInv1, hdata1,
            min_eq_left hge, List.take_length]

/-- Witness for C2: partial write of a six-byte slice into a full-capacity-4
buffer returns 4. -/
theorem C2_write_spec_witness :
    ((Buffer.new [0, 0, 0, 0]).write_base [1, 2, 3, 4, 5, 6]).1 = .ok 4 := by
  have hw := ((C2_write_spec (Buffer.new [0, 0, 0, 0]) [1, 2, 3, 4, 5, 6]
    (by decide)).2.2 (by decide) (by decide)).1
  rw [hw]
  rfl

/-- C6: writing a byte sequence `S` with `S.length ≤ capacity` into a freshly
constructed buffer and then reading `S.length` bytes back fills the
destination slice with exactly `S`. -/
theorem C6_roundtrip (S src0 : List Nat) (h : S.length ≤ (Buffer.new src0).capacity) :
    (Buffer.read_base ((Buffer.new src0).write_base S).2 (List.replicate S.length 0)).2.1
      = S := by
  by_cases hS : S = []
  · subst hS
    rfl
  · have hSl : 0 < S.length := List.length_pos.mpr hS
    have hcap : S.length ≤ src0.length := h
    have hbe : S.isEmpty = false := by
      cases S
      · exact absurd rfl hS
      · rfl
    have hInv0 : (Buffer.new src0).Inv := ⟨Nat.le_refl 0, Nat.zero_le _⟩
    have hws : (Buffer.new src0).write_shifted = Buffer.new src0 := by
      unfold Buffer.write_shifted
      exact if_neg (fun hcon => Bool.false_ne_true hcon.2)
    have hwrite : ((Buffer.new src0).write_base S).2
        = { Buffer.new src0 with
            source := Buffer.copyInto (Buffer.new src0).source
              (Buffer.new src0).write_position S,
            write_position := (Buffer.new src0).write_position + S.length } := by
      simp only [Buffer.write_base, hbe, Bool.false_eq_true, if_false, hws]
      rw [if_neg (show ¬ (Buffer.new src0).remaining_capacity = 0 from by
            show ¬ (src0.length - 0 = 0)
            omega),
          if_neg (show ¬ (Buffer.new src0).remaining_capacity < S.length from by
            show ¬ (src0.length - 0 < S.length)
            omega)]
    have hdata : ((Buffer.new src0).write_base S).2.data = S := by
      rw [hwrite, Buffer.data_copyInto (Buffer.new src0) S hInv0]
      rfl
    have hre : (List.replicate S.length 0).isEmpty = false := by
      cases hn : S.length
      · exact absurd hn (by omega)
      · rfl
    simp only [Buffer.read_base, hre, Bool.false_eq_true, if_false, hdata, hbe,
      List.length_replicate]
    rw [if_neg (lt_irrefl S.length)]
    rw [show (List.replicate S.length 0).drop S.length = [] from by simp]
    exact List.append_nil S

/-- Witness for C6 at `S = [9, 8, 7]`, capacity 4. -/
theorem C6_roundtrip_witness :
    (Buffer.read_base ((Buffer.new [0, 0, 0, 0]).write_base [9, 8, 7]).2
      (List.replicate [9, 8, 7].length 0)).2.1 = [9, 8, 7] :=
  C6_roundtrip [9, 8, 7] [0, 0, 0, 0] (by decide)

/-- C3 fails as stated: on a full buffer with dead capacity (state
`source = [1,2,3,4]`, `write_position = 4`, `read_position = 2`, reachable by
writing 4 bytes and reading 2), `push` of a 5-byte slice fails with
`NoCapacity` but has mutated the buffer (the compaction `shift` ran first:
cursors moved and the storage was rotated). -/
theorem C3_push_counterexample :
    (Buffer.push ⟨[1, 2, 3, 4], 4, 2⟩ [9, 9, 9, 9, 9]).1 = .error .NoCapacity ∧
    (Buffer.push ⟨[1, 2, 3, 4], 4, 2⟩ [9, 9, 9, 9, 9]).2 ≠ ⟨[1, 2, 3, 4], 4, 2⟩ :=
  ⟨rfl, by decide⟩

/-- C3 amended: `push(buf)` either copies the entire slice (the readable data
becomes `data ++ buf` and `write_position` advances by `buf.len()` from the
possibly-compacted state), or fails with `NoCapacity`; on failure the readable
bytes and `remaining_len` are unchanged, but the buffer may have been
compacted first, so the cursors and raw storage may have moved. -/
theorem C3_push_amended (b : Buffer) (buf : List Nat) (h : b.Inv) :
    ((b.push buf).1 = .ok () ∨ (b.push buf).1 = .error .NoCapacity) ∧
    ((b.push buf).1 = .ok () →
      (b.push buf).2.write_position = (b.push_shifted buf).write_position + buf.length ∧
      (b.push buf).2.data = b.data ++ buf) ∧
    ((b.push buf).1 = .error .NoCapacity →
      (b.push buf).2.data = b.data ∧
      (b.push buf).2.remaining_len = b.remaining_len) := by
  have hInv1 := Buffer.Inv_push_shifted b buf h
  have hdata1 := Buffer.data_push_shifted b buf h
  have hrl1 := Buffer.remaining_len_push_shifted b buf
  simp only [Buffer.push]
  split
  · refine ⟨Or.inl rfl, fun _ => ⟨rfl, ?_⟩, fun hc => nomatch hc⟩
    rw [Buffer.data_copyInto (b.push_shifted buf) buf hInv1, hdata1]
  · refine ⟨Or.inr rfl, ?_, fun _ => ⟨hdata1, hrl1⟩⟩
    intro hc
    exact absurd hc (by simp)

/-- Witness for the amended C3: a successful whole-slice push. -/
theorem C3_push_amended_witness :
    ((Buffer.new [0, 0]).push [5]).1 = .ok () ∨
    ((Buffer.new [0, 0]).push [5]).1 = .error .NoCapacity :=
  (C3_push_amended (Buffer.new [0, 0]) [5] (by decide)).1

/-- C8 fails as stated for capped readers: on a buffer with 2 unread bytes, a
reader created with `max_bytes = 1` exposes the one-byte view `[1]`, yet
declaring 2 consumed bytes (more than the exposed view's length) releases
normally — `drop` checks the declared total against `remaining_len`, not
against the exposed view, and advances the read cursor by 2. -/
theorem C8_reader_counterexample :
    reader_deref ⟨[1, 2, 3, 4], 2, 0⟩ (some 1) = some [1] ∧
    reader_drop ⟨[1, 2, 3, 4], 2, 0⟩ 2 = some ⟨[1, 2, 3, 4], 2, 2⟩ := by
  decide

/-- C8 amended: a reader without a cap exposes exactly the unread region
(whose length is `remaining_len`); on release `skip(total)` is applied, so
declaring 0 leaves the buffer unchanged, a total within `remaining_len`
advances the read cursor by exactly that total, and a total exceeding
`remaining_len` (for an uncapped reader: exceeding the exposed view's length)
panics at release. -/
theorem C8_reader_amended (b : Buffer) (total : Nat) (h : b.Inv) :
    reader_deref b none = some b.data ∧
    b.data.length = b.remaining_len ∧
    reader_drop b 0 = some b ∧
    (total ≤ b.remaining_len →
      reader_drop b total = some { b with read_position := b.read_position + total }) ∧
    (b.remaining_len < total → reader_drop b total = none) := by
  refine ⟨rfl, Buffer.length_data b h, ?_, ?_, ?_⟩
  · unfold reader_drop Buffer.skip
    rw [if_pos (Nat.zero_le _)]
    rfl
  · intro hle
    unfold reader_drop Buffer.skip
    rw [if_pos hle]
  · intro hlt
    unfold reader_drop Buffer.skip
    rw [if_neg (by omega)]

/-- Witness for the amended C8: 4 unread bytes, declare 3 on release. -/
theorem C8_reader_amended_witness :
    reader_drop ⟨[1, 2, 3, 4, 0, 0, 0, 0], 4, 0⟩ 3
      = some ⟨[1, 2, 3, 4, 0, 0, 0, 0], 4, 3⟩ :=
  (C8_reader_amended ⟨[1, 2, 3, 4, 0, 0, 0, 0], 4, 0⟩ 3 (by decide)).2.2.2.1 (by decide)

/-- C9: a writer session — create the writer (which shifts), write `ws` into
the exposed region, commit `k ≤ ws.length` of it, release — advances
`write_position` to exactly `remaining_len + k` and appends exactly the
committed prefix `ws.take k` to the readable data: the uncommitted suffix of
`ws` is invisible to any subsequent read. -/
theorem C9_writer_uncommitted (b : Buffer) (ws : List Nat) (k : Nat) (h : b.Inv)
    (hws : ws.length ≤ (WriteHandle.create_writer b).deref.length)
    (hk : k ≤ ws.length) :
    ((((WriteHandle.create_writer b).write_view ws).commit k).1 = .ok ()) ∧
    (∃ b', (((WriteHandle.create_writer b).write_view ws).commit k).2.drop = some b' ∧
      b'.write_position = b.remaining_len + k ∧
      b'.data = b.data ++ ws.take k) := by
  have hInvS := Buffer.Inv_shift b h
  have hwp : b.shift.write_position ≤ b.shift.source.length := hInvS.2
  have hd : (WriteHandle.create_writer b).deref.length
      = b.shift.source.length - b.shift.write_position := by
    show (b.shift.source.drop (b.shift.write_position + 0)).length = _
    rw [List.length_drop, Nat.add_zero]
  rw [hd] at hws
  have hlen : (Buffer.copyInto b.shift.source (b.shift.write_position + 0) ws).length
      = b.shift.source.length :=
    Buffer.length_copyInto _ _ _ (by omega)
  have hrc : ¬ (((WriteHandle.create_writer b).write_view ws).remaining_capacity < k) := by
    show ¬ ((Buffer.copyInto b.shift.source (b.shift.write_position + 0) ws).length
        - b.shift.write_position - 0 < k)
    rw [hlen]
    omega
  have hcommit : (((WriteHandle.create_writer b).write_view ws).commit k)
      = (.ok (), ⟨((WriteHandle.create_writer b).write_view ws).buffer,
          ((WriteHandle.create_writer b).write_view ws).bytes_written + k⟩) := by
    unfold WriteHandle.commit
    rw [if_neg hrc]
  refine ⟨by rw [hcommit], ?_⟩
  refine ⟨{ b.shift with
      source := Buffer.copyInto b.shift.source b.shift.write_position ws,
      write_position := b.shift.write_position + k }, ?_, ?_, ?_⟩
  · rw [hcommit]
    unfold WriteHandle.drop
    rw [if_neg (show ¬ (((WriteHandle.create_writer b).write_view ws).buffer.write_position
        + (((WriteHandle.create_writer b).write_view ws).bytes_written + k)
        > ((WriteHandle.create_writer b).write_view ws).buffer.source.length) from by
      show ¬ (b.shift.write_position + (0 + k)
          > (Buffer.copyInto b.shift.source (b.shift.write_position + 0) ws).length)
      rw [hlen]
      omega)]
    show some { b.shift with
        source := Buffer.copyInto b.shift.source (b.shift.write_position + 0) ws,
        write_position := b.shift.write_position + (0 + k) } = _
    rw [Nat.add_zero, Nat.zero_add]
  · show b.shift.write_position + k = b.remaining_len + k
    show b.write_position - b.read_position + k = b.write_position - b.read_position + k
    rfl
  · rw [show ({ b.shift with
        source := Buffer.copyInto b.shift.source b.shift.write_position ws,
        write_position := b.shift.write_position + k } : Buffer)
        = { b.shift with
            source := Buffer.copyInto b.shift.source b.shift.write_position ws,
            write_position := b.shift.write_position + k } from rfl,
      Buffer.data_copyInto_take b.shift ws k hInvS hk, Buffer.data_shift b h]

/-- Witness for C9: two dead bytes reclaimed, write `[7, 8]`, commit 1. -/
theorem C9_writer_uncommitted_witness :
    ∃ b', ((((WriteHandle.create_writer ⟨[1, 2, 3, 4], 2, 1⟩).write_view [7, 8]).commit 1).2.drop
        = some b') ∧
      b'.write_position = (Buffer.remaining_len ⟨[1, 2, 3, 4], 2, 1⟩) + 1 ∧
      b'.data = (Buffer.data ⟨[1, 2, 3, 4], 2, 1⟩) ++ [7, 8].take 1 :=
  (C9_writer_uncommitted ⟨[1, 2, 3, 4], 2, 1⟩ [7, 8] 1 (by decide) (by decide) (by decide)).2

/-! Invariant preservation, operation by operation. -/

theorem Inv_write_base (b : Buffer) (buf : List Nat) (h : b.Inv) :
    (b.write_base buf).2.Inv := by
  have h1 := Buffer.Inv_write_shifted b h
  have hrc : b.write_shifted.remaining_capacity
      = b.write_shifted.capacity - b.write_shifted.write_position := rfl
  have hc : b.write_shifted.capacity = b.write_shifted.source.length := rfl
  simp only [Buffer.write_base]
  split
  · exact h
  · split
    · exact h1
    · split
      case isTrue hcap hlt =>
        have hdl : (buf.take b.write_shifted.remaining_capacity).length
            = b.write_shifted.remaining_capacity := by
          rw [List.length_take]
          omega
        refine ⟨le_trans h1.1 (Nat.le_add_right _ _), ?_⟩
        show b.write_shifted.write_position + b.write_shifted.remaining_capacity
            ≤ (Buffer.copyInto b.write_shifted.source b.write_shifted.write_position
                (buf.take b.write_shifted.remaining_capacity)).length
        rw [Buffer.length_copyInto _ _ _ (by rw [hdl]; have := h1.2; omega)]
        have := h1.2
        omega
      case isFalse hcap hge =>
        refine ⟨le_trans h1.1 (Nat.le_add_right _ _), ?_⟩
        show b.write_shifted.write_position + buf.length
            ≤ (Buffer.copyInto b.write_shifted.source b.write_shifted.write_position buf).length
        rw [Buffer.length_copyInto _ _ _ (by have := h1.2; omega)]
        have := h1.2
        omega

theorem Inv_read_base (b : Buffer) (buf : List Nat) (h : b.Inv) :
    (b.read_base buf).2.2.Inv := by
  have hdl := Buffer.length_data b h
  have hrl : b.remaining_len = b.write_position - b.read_position := rfl
  obtain ⟨h1, h2⟩ := h
  simp only [Buffer.read_base]
  split
  · exact ⟨h1, h2⟩
  · split
    · exact ⟨h1, h2⟩
    · split
      case isTrue hne hgt =>
        refine ⟨?_, h2⟩
        show b.read_position + buf.length ≤ b.write_position
        omega
      case isFalse hne hle =>
        refine ⟨?_, h2⟩
        show b.read_position + b.data.length ≤ b.write_position
        omega

theorem Inv_push (b : Buffer) (buf : List Nat) (h : b.Inv) :
    (b.push buf).2.Inv := by
  have h1 := Buffer.Inv_push_shifted b buf h
  have hrc : (b.push_shifted buf).remaining_capacity
      = (b.push_shifted buf).capacity - (b.push_shifted buf).write_position := rfl
  have hc : (b.push_shifted buf).capacity = (b.push_shifted buf).source.length := rfl
  simp only [Buffer.push]
  split
  case isTrue hge =>
    refine ⟨le_trans h1.1 (Nat.le_add_right _ _), ?_⟩
    show (b.push_shifted buf).write_position + buf.length
        ≤ (Buffer.copyInto (b.push_shifted buf).source (b.push_shifted buf).write_position
            buf).length
    rw [Buffer.length_copyInto _ _ _ (by have := h1.2; omega)]
    have := h1.2
    omega
  case isFalse hlt =>
    exact h1

theorem Inv_skip (b : Buffer) (n : Nat) (h : b.Inv) : (b.skip n).2.Inv := by
  have hrl : b.remaining_len = b.write_position - b.read_position := rfl
  obtain ⟨h1, h2⟩ := h
  unfold Buffer.skip
  split
  case isTrue hle =>
    exact ⟨by show b.read_position + n ≤ b.write_position; omega, h2⟩
  case isFalse hgt =>
    exact ⟨h1, h2⟩

theorem Inv_reader_drop (b b' : Buffer) (total : Nat) (h : b.Inv)
    (hd : reader_drop b total = some b') : b'.Inv := by
  have hrl : b.remaining_len = b.write_position - b.read_position := rfl
  obtain ⟨h1, h2⟩ := h
  unfold reader_drop Buffer.skip at hd
  by_cases hle : b.remaining_len ≥ total
  · rw [if_pos hle] at hd
    have hd2 : some { b with read_position := b.read_position + total } = some b' := hd
    cases Option.some.inj hd2
    exact ⟨by show b.read_position + total ≤ b.write_position; omega, h2⟩
  · rw [if_neg hle] at hd
    exact Option.noConfusion hd

theorem WInv_create_writer (b : Buffer) (h : b.Inv) :
    WInv (WriteHandle.create_writer b) := by
  have hs := Buffer.Inv_shift b h
  refine ⟨hs.1, ?_⟩
  show b.shift.write_position + 0 ≤ b.shift.capacity
  have := hs.2
  omega

theorem WInv_commit (w : WriteHandle) (n : Nat) (h : WInv w) : WInv (w.commit n).2 := by
  have hrc : w.remaining_capacity
      = w.buffer.capacity - w.buffer.write_position - w.bytes_written := rfl
  obtain ⟨h1, h2⟩ := h
  unfold WriteHandle.commit
  split
  case isTrue hlt =>
    exact ⟨h1, h2⟩
  case isFalse hge =>
    refine ⟨h1, ?_⟩
    show w.buffer.write_position + (w.bytes_written + n) ≤ w.buffer.capacity
    omega

theorem WInv_write_view (w : WriteHandle) (ws : List Nat)
    (hl : ws.length ≤ w.deref.length) (h : WInv w) : WInv (w.write_view ws) := by
  have hd : w.deref.length
      = w.buffer.source.length - (w.buffer.write_position + w.bytes_written) := by
    show (w.buffer.source.drop _).length = _
    rw [List.length_drop]
  rw [hd] at hl
  have hc : w.buffer.capacity = w.buffer.source.length := rfl
  obtain ⟨h1, h2⟩ := h
  refine ⟨h1, ?_⟩
  show w.buffer.write_position + w.bytes_written
      ≤ Buffer.capacity { w.buffer with
          source := Buffer.copyInto w.buffer.source
            (w.buffer.write_position + w.bytes_written) ws }
  show w.buffer.write_position + w.bytes_written
      ≤ (Buffer.copyInto w.buffer.source (w.buffer.write_position + w.bytes_written) ws).length
  rw [Buffer.length_copyInto _ _ _ (by omega)]
  omega

theorem WInv_steps (w w' : WriteHandle) (hs : WriterSteps w w') (h : WInv w) : WInv w' := by
  induction hs with
  | refl => exact h
  | commit w2 n prev ih => exact WInv_commit w2 n ih
  | write w2 ws hl prev ih => exact WInv_write_view w2 ws hl ih

theorem Inv_writer_drop (w : WriteHandle) (b' : Buffer) (h : WInv w)
    (hd : w.drop = some b') : b'.Inv := by
  have hc : w.buffer.capacity = w.buffer.source.length := rfl
  obtain ⟨h1, h2⟩ := h
  have hd2 : (if w.buffer.write_position + w.bytes_written > w.buffer.source.length
      then none
      else some { w.buffer with
        write_position := w.buffer.write_position + w.bytes_written }) = some b' := hd
  rw [if_neg (by omega)] at hd2
  cases Option.some.inj hd2
  refine ⟨le_trans h1 (Nat.le_add_right _ _), ?_⟩
  show w.buffer.write_position + w.bytes_written ≤ w.buffer.source.length
  omega

theorem Inv_step (b b' : Buffer) (hs : Step b b') (h : b.Inv) : b'.Inv := by
  cases hs
  case write buf => exact Inv_write_base b buf h
  case read buf => exact Inv_read_base b buf h
  case push buf => exact Inv_push b buf h
  case skip n => exact Inv_skip b n h
  case shift => exact Buffer.Inv_shift b h
  case reset => exact ⟨Nat.le_refl 0, Nat.zero_le _⟩
  case reader =>
    rename_i total hd
    exact Inv_reader_drop b b' total h hd
  case writer =>
    rename_i w hsteps hd
    exact Inv_writer_drop w b' (WInv_steps _ _ hsteps (WInv_create_writer b h)) hd

/-- C1: every state reachable from a freshly constructed buffer — by any
finite sequence of writes, reads, pushes, skips, shifts, resets and complete
reader/writer sessions — satisfies the cursor invariant
`0 ≤ read_position ≤ write_position ≤ capacity`. -/
theorem C1_cursor_invariant (src0 : List Nat) (b : Buffer)
    (h : Reachable src0 b) : b.Inv := by
  induction h with
  | refl => exact ⟨Nat.le_refl 0, Nat.zero_le _⟩
  | tail _ hstep ih => exact Inv_step _ _ hstep ih

/-- Witness for C1: a fresh capacity-2 buffer after one write step. -/
theorem C1_cursor_invariant_witness :
    ((Buffer.new [0, 0]).write_base [5]).2.Inv :=
  C1_cursor_invariant [0, 0] _
    (Relation.ReflTransGen.tail Relation.ReflTransGen.refl
      (Step.write (Buffer.new [0, 0]) [5]))

end EmbytesBuffer
